import Mathlib

/-!
# Verification of the flexible MCP configuration/tool-filtering core

Shallow embedding of the repository's priority-configuration resolver
(`src/config`: `extractHeaderConfig`, `extractEnvConfig`, `resolveConfig`,
`resolveToolFiltering`, `getToolFilteringSource`, `tryParseValue`,
`kebabToCamelCase`, `upperCaseToCamelCase`, `getDefaultConfig`) and of the
tool registry and filter (`src/tools/registry`: `registerTool`,
`registerTools`, `filterTools`, `shouldIncludeTool`, `evaluateCondition`,
`createFilterCacheKey`, `createFilterResult`).

Modelling conventions:
* JavaScript runtime values that flow through the configuration maps are a
  closed `Json` type (string, rational number, boolean, null, array, object).
  `undefined` is represented by absence (`Option.none` on lookup): no code
  path of this repository stores `undefined` in a configuration object.
* `JSON.parse` (a platform builtin, not repository code) is modelled by
  `jsonParse`, a fueled recursive-descent parser of the JSON grammar
  returning `none` exactly where `JSON.parse` throws.
* JS objects used as string-keyed records are association lists; property
  assignment replaces in place when the key exists and appends otherwise,
  matching JS property-order semantics.  JS `Map` is modelled the same way.
* Stateful registry functions take the registry state explicitly and return
  the updated state.  `console.warn`/`console.log` side effects are not
  modelled (they do not affect any returned value).
-/

/-- A JavaScript/JSON runtime value.  Numbers are modelled as rationals
(idealizing IEEE doubles; every literal exercised here is exact). -/
inductive Json where
  | null : Json
  | bool : Bool → Json
  | num : ℚ → Json
  | str : String → Json
  | arr : List Json → Json
  | obj : List (String × Json) → Json
  deriving Repr

namespace Json

mutual

/-- Structural Boolean equality on `Json`. -/
def beq : Json → Json → Bool
  | .null, .null => true
  | .bool a, .bool b => a == b
  | .num a, .num b => a == b
  | .str a, .str b => a == b
  | .arr a, .arr b => beqList a b
  | .obj a, .obj b => beqObj a b
  | _, _ => false

/-- Boolean equality on lists of `Json`. -/
def beqList : List Json → List Json → Bool
  | [], [] => true
  | a :: as, b :: bs => beq a b && beqList as bs
  | _, _ => false

/-- Boolean equality on JSON object member lists. -/
def beqObj : List (String × Json) → List (String × Json) → Bool
  | [], [] => true
  | (ka, va) :: as, (kb, vb) :: bs => ka == kb && beq va vb && beqObj as bs
  | _, _ => false

end

end Json

mutual

theorem Json.beq_refl : ∀ j : Json, Json.beq j j = true
  | .null => rfl
  | .bool b => by simp [Json.beq]
  | .num q => by simp [Json.beq]
  | .str s => by simp [Json.beq]
  | .arr l => by simp [Json.beq, Json.beqList_refl l]
  | .obj l => by simp [Json.beq, Json.beqObj_refl l]

theorem Json.beqList_refl : ∀ l : List Json, Json.beqList l l = true
  | [] => rfl
  | a :: as => by simp [Json.beqList, Json.beq_refl a, Json.beqList_refl as]

theorem Json.beqObj_refl : ∀ l : List (String × Json), Json.beqObj l l = true
  | [] => rfl
  | (k, v) :: as => by simp [Json.beqObj, Json.beq_refl v, Json.beqObj_refl as]

end

mutual

theorem Json.eq_of_beq : ∀ {a b : Json}, Json.beq a b = true → a = b
  | .null, .null, _ => rfl
  | .bool _, .bool _, h => by simpa [Json.beq] using congrArg (Json.bool ·) (by simpa [Json.beq] using h)
  | .num _, .num _, h => by
      have := (by simpa [Json.beq] using h : _ = _)
      exact congrArg Json.num this
  | .str _, .str _, h => by
      have := (by simpa [Json.beq] using h : _ = _)
      exact congrArg Json.str this
  | .arr _, .arr _, h => by
      have := Json.eqList_of_beq (by simpa [Json.beq] using h)
      exact congrArg Json.arr this
  | .obj _, .obj _, h => by
      have := Json.eqObj_of_beq (by simpa [Json.beq] using h)
      exact congrArg Json.obj this

theorem Json.eqList_of_beq : ∀ {a b : List Json}, Json.beqList a b = true → a = b
  | [], [], _ => rfl
  | x :: xs, y :: ys, h => by
      have h' := (by simpa [Json.beqList] using h : Json.beq x y = true ∧ Json.beqList xs ys = true)
      have h1 := Json.eq_of_beq h'.1
      have h2 := Json.eqList_of_beq h'.2
      rw [h1, h2]

theorem Json.eqObj_of_beq : ∀ {a b : List (String × Json)}, Json.beqObj a b = true → a = b
  | [], [], _ => rfl
  | (k, v) :: xs, (k', v') :: ys, h => by
      have h' := (by simpa [Json.beqObj] using h :
        (k = k' ∧ Json.beq v v' = true) ∧ Json.beqObj xs ys = true)
      have h1 := Json.eq_of_beq h'.1.2
      have h2 := Json.eqObj_of_beq h'.2
      rw [h'.1.1, h1, h2]

end

instance : BEq Json := ⟨Json.beq⟩

instance : LawfulBEq Json where
  rfl := Json.beq_refl _
  eq_of_beq := Json.eq_of_beq

instance : DecidableEq Json := fun a b =>
  decidable_of_iff (Json.beq a b = true) ⟨Json.eq_of_beq, fun h => h ▸ Json.beq_refl a⟩

/-! ## Model of the `JSON.parse` builtin -/

/-- Skip JSON insignificant whitespace. -/
def skipWs : List Char → List Char
  | c :: cs => if c = ' ' ∨ c = '\t' ∨ c = '\n' ∨ c = '\r' then skipWs cs else c :: cs
  | [] => []

/-- Longest digit prefix and the remainder. -/
def spanDigits : List Char → List Char × List Char
  | [] => ([], [])
  | c :: cs =>
    if c.isDigit then
      let (d, r) := spanDigits cs
      (c :: d, r)
    else ([], c :: cs)

/-- Numeric value of a digit string. -/
def digitsVal (ds : List Char) : Nat :=
  ds.foldl (fun n c => 10 * n + (c.toNat - '0'.toNat)) 0

/-- Parse an optional JSON fraction part (`.` followed by digits),
returning the fraction digits. -/
def parseFrac : List Char → Option (List Char × List Char)
  | '.' :: rest =>
    let (fds, rr) := spanDigits rest
    if fds.isEmpty then none else some (fds, rr)
  | s => some ([], s)

/-- Parse an optional JSON exponent part (`e`/`E`, optional sign, digits). -/
def parseExp : List Char → Option (Int × List Char)
  | c :: rest =>
    if c = 'e' ∨ c = 'E' then
      let (esign, r1) : Int × List Char :=
        match rest with
        | '+' :: r => (1, r)
        | '-' :: r => (-1, r)
        | _ => (1, rest)
      let (eds, rr) := spanDigits r1
      if eds.isEmpty then none else some (esign * (digitsVal eds : Int), rr)
    else some (0, c :: rest)
  | [] => some (0, [])

/-- Parse a JSON number (JSON grammar: optional `-`, integer part without
superfluous leading zeros, optional fraction and exponent). -/
def parseNumber (s : List Char) : Option (ℚ × List Char) :=
  let (sign, s1) : Int × List Char :=
    match s with
    | '-' :: rest => (-1, rest)
    | _ => (1, s)
  let (ds, r) := spanDigits s1
  if ds.isEmpty then none
  else if ds.length > 1 && ds.head? == some '0' then none
  else
    match parseFrac r with
    | none => none
    | some (fds, r2) =>
      match parseExp r2 with
      | none => none
      | some (ex, r3) =>
        -- value = sign · (integer and fraction digits as one integer) · 10^(exponent − #fraction digits),
        -- built with `mkRat` so that the kernel can evaluate it
        let mantissa : Int := sign * (digitsVal (ds ++ fds) : Int)
        let net : Int := ex - (fds.length : Int)
        let q : ℚ :=
          if 0 ≤ net then mkRat (mantissa * (10 : Int) ^ net.toNat) 1
          else mkRat mantissa ((10 : Nat) ^ (-net).toNat)
        some (q, r3)

/-- Value of a hexadecimal digit, if any. -/
def hexVal (c : Char) : Option Nat :=
  if c.isDigit then some (c.toNat - '0'.toNat)
  else if 'a' ≤ c ∧ c ≤ 'f' then some (c.toNat - 'a'.toNat + 10)
  else if 'A' ≤ c ∧ c ≤ 'F' then some (c.toNat - 'A'.toNat + 10)
  else none

/-- Parse the body of a JSON string (the opening quote already consumed),
returning the decoded characters and the remainder after the closing quote.
Astral surrogate pairing is not modelled (no claim exercises it). -/
def parseStringBody : List Char → Option (List Char × List Char)
  | [] => none
  | '"' :: rest => some ([], rest)
  | '\\' :: e :: rest =>
    (match e, rest with
     | '"', r => (parseStringBody r).map (fun (l, rr) => ('"' :: l, rr))
     | '\\', r => (parseStringBody r).map (fun (l, rr) => ('\\' :: l, rr))
     | '/', r => (parseStringBody r).map (fun (l, rr) => ('/' :: l, rr))
     | 'b', r => (parseStringBody r).map (fun (l, rr) => (Char.ofNat 8 :: l, rr))
     | 'f', r => (parseStringBody r).map (fun (l, rr) => (Char.ofNat 12 :: l, rr))
     | 'n', r => (parseStringBody r).map (fun (l, rr) => ('\n' :: l, rr))
     | 'r', r => (parseStringBody r).map (fun (l, rr) => (Char.ofNat 13 :: l, rr))
     | 't', r => (parseStringBody r).map (fun (l, rr) => ('\t' :: l, rr))
     | 'u', a :: b :: c :: d :: r =>
       (match hexVal a, hexVal b, hexVal c, hexVal d with
        | some ha, some hb, some hc, some hd =>
          (parseStringBody r).map
            (fun (l, rr) => (Char.ofNat (((ha * 16 + hb) * 16 + hc) * 16 + hd) :: l, rr))
        | _, _, _, _ => none)
     | _, _ => none)
  | c :: rest =>
    if c.toNat < 32 then none
    else (parseStringBody rest).map (fun (l, rr) => (c :: l, rr))

mutual

/-- Parse one JSON value (fueled; fuel bounds nesting and element count). -/
def parseVal : Nat → List Char → Option (Json × List Char)
  | 0, _ => none
  | fuel + 1, s =>
    match skipWs s with
    | 't' :: 'r' :: 'u' :: 'e' :: rest => some (.bool true, rest)
    | 'f' :: 'a' :: 'l' :: 's' :: 'e' :: rest => some (.bool false, rest)
    | 'n' :: 'u' :: 'l' :: 'l' :: rest => some (.null, rest)
    | '"' :: rest =>
      (parseStringBody rest).map (fun (cs, r) => (.str (String.mk cs), r))
    | '[' :: rest =>
      (match skipWs rest with
       | ']' :: r2 => some (.arr [], r2)
       | _ => (parseElems fuel rest).map (fun (l, r2) => (.arr l, r2)))
    | '{' :: rest =>
      (match skipWs rest with
       | '}' :: r2 => some (.obj [], r2)
       | _ => (parseMembers fuel rest).map (fun (l, r2) => (.obj l, r2)))
    | c :: rest =>
      if c = '-' ∨ c.isDigit then
        (parseNumber (c :: rest)).map (fun (q, r) => (.num q, r))
      else none
    | [] => none

/-- Parse one or more comma-separated JSON array elements up to `]`. -/
def parseElems : Nat → List Char → Option (List Json × List Char)
  | 0, _ => none
  | fuel + 1, s =>
    match parseVal fuel s with
    | none => none
    | some (j, r) =>
      match skipWs r with
      | ',' :: r2 => (parseElems fuel r2).map (fun (l, r3) => (j :: l, r3))
      | ']' :: r2 => some ([j], r2)
      | _ => none

/-- Parse one or more comma-separated JSON object members up to `}`. -/
def parseMembers : Nat → List Char → Option (List (String × Json) × List Char)
  | 0, _ => none
  | fuel + 1, s =>
    match skipWs s with
    | '"' :: rest =>
      (match parseStringBody rest with
       | none => none
       | some (cs, r) =>
         match skipWs r with
         | ':' :: r2 =>
           (match parseVal fuel r2 with
            | none => none
            | some (j, r3) =>
              match skipWs r3 with
              | ',' :: r4 => (parseMembers fuel r4).map (fun (l, r5) => ((String.mk cs, j) :: l, r5))
              | '}' :: r4 => some ([(String.mk cs, j)], r4)
              | _ => none)
         | _ => none)
    | _ => none

end

/-- Model of `JSON.parse(s)`: `some` the parsed value, `none` where the
builtin throws (trailing garbage included). -/
def jsonParse (s : String) : Option Json :=
  match parseVal (2 * s.length + 2) s.data with
  | some (j, rest) => if (skipWs rest).isEmpty then some j else none
  | none => none

/-! ## String helpers of `src/config/resolver` -/

/-- Model of `String.prototype.startsWith` (computable on character lists). -/
def strStartsWith (s pre : String) : Bool :=
  pre.data.isPrefixOf s.data

/-- Model of `String.prototype.toLowerCase` (ASCII case folding; no key in
this repository uses non-ASCII letters). -/
def strToLower (s : String) : String :=
  String.mk (s.data.map Char.toLower)

/-- Character rewriting of the global regex replace (dash followed by a
capture of one ASCII lowercase letter) used by `kebabToCamelCase`: each
dash-letter pair becomes the letter uppercased; any other dash is kept. -/
def kebabChars : List Char → List Char
  | '-' :: c :: rest =>
    if 'a' ≤ c ∧ c ≤ 'z' then c.toUpper :: kebabChars rest
    else '-' :: kebabChars (c :: rest)
  | c :: rest => c :: kebabChars rest
  | [] => []

/-- `kebabToCamelCase` from the source: `"client-url"` → `"clientUrl"`. -/
def kebabToCamelCase (s : String) : String :=
  String.mk (kebabChars s.data)

/-- Character rewriting of the regex replace `/_([a-z])/g` (applied after
lowercasing) used by `upperCaseToCamelCase`. -/
def underscoreChars : List Char → List Char
  | '_' :: c :: rest =>
    if 'a' ≤ c ∧ c ≤ 'z' then c.toUpper :: underscoreChars rest
    else '_' :: underscoreChars (c :: rest)
  | c :: rest => c :: underscoreChars rest
  | [] => []

/-- `upperCaseToCamelCase` from the source: lowercase the whole string, then
camel-case at underscores. `"CLIENT_URL"` → `"clientUrl"`. -/
def upperCaseToCamelCase (s : String) : String :=
  String.mk (underscoreChars (strToLower s).data)

/-- The regex test `/^\d+(\.\d+)?$/` used by `tryParseValue`. -/
def matchesNumeral (s : String) : Bool :=
  let (ds, r) := spanDigits s.data
  !ds.isEmpty &&
    (match r with
     | [] => true
     | '.' :: rest =>
       let (fs, r2) := spanDigits rest
       !fs.isEmpty && r2.isEmpty
     | _ => false)

/-- `tryParseValue` from the source: leave the token as a string unless it
looks like structured data, a boolean literal, or a numeral; otherwise
attempt `JSON.parse`, falling back to the original string on failure. -/
def tryParseValue (value : String) : Json :=
  if !(strStartsWith value "\x7b") && !(strStartsWith value "[") && !(strStartsWith value "\"")
      && !(value == "true") && !(value == "false") && !(matchesNumeral value) then
    .str value
  else
    match jsonParse value with
    | some j => j
    | none => .str value

example : tryParseValue "true" = .bool true := by rfl
example : tryParseValue "42" = .num 42 := by rfl
example : tryParseValue "plain" = .str "plain" := by rfl
example : tryParseValue "\x7bbad" = .str "\x7bbad" := by rfl
example : tryParseValue "[\"x\",\"y\"]" = .arr [.str "x", .str "y"] := by rfl
example : tryParseValue "00" = .str "00" := by rfl
example : kebabToCamelCase "client-url" = "clientUrl" := by rfl
example : upperCaseToCamelCase "CLIENT_URL" = "clientUrl" := by rfl
example : jsonParse "4.5" = some (.num (mkRat 9 2)) := by decide

/-! ## JS objects as string-keyed records -/

/-- A JS object used as a string-keyed record (`FlexibleConfig`,
`HeaderConfig`, `EnvConfig`, `DefaultConfig`, `ResolvedConfig`): an
association list in property insertion order.  Values are always defined —
no code path of the repository stores `undefined`, so the source's
`hasOwnProperty(k) && cfg[k] !== undefined` test is `(getKey cfg k).isSome`
here. -/
abbrev CfgMap := List (String × Json)

/-- JS property assignment `m[k] = v`: replace in place when the key exists,
append otherwise (JS `Map.set` has the same semantics). -/
def setKey {β : Type} (m : List (String × β)) (k : String) (v : β) : List (String × β) :=
  if m.any (fun p => p.1 == k) then
    m.map (fun p => if p.1 == k then (k, v) else p)
  else m ++ [(k, v)]

/-- JS property read `m[k]`, `none` for `undefined` (JS `Map.get` likewise). -/
def getKey {β : Type} (m : List (String × β)) (k : String) : Option β :=
  (m.find? (fun p => p.1 == k)).map (·.2)

/-- The keys of a record, in property order (JS `Object.keys`). -/
def keysOf {β : Type} (m : List (String × β)) : List String :=
  m.map (·.1)

/-- JS `Set` insertion-order deduplication (first occurrence kept), for the
`allKeys` set of `resolveConfig`. -/
def firstDedup (l : List String) : List String :=
  go [] l
where
  /-- Worker carrying the set of keys already seen. -/
  go (seen : List String) : List String → List String
    | [] => []
    | a :: rest => if a ∈ seen then go seen rest else a :: go (a :: seen) rest

/-! ## `src/config`: extraction, defaults and resolution -/

/-- `extractHeaderConfig(headers)`: kebab-case keys become camelCase and
values go through `tryParseValue`; the reserved `to-use` key is exempt from
normalization and parsed with `JSON.parse`, degrading to `[]` on parse
failure (the accompanying `console.warn` is a log, not part of the value).
Headers are modelled as the ordered key-value pairs the source iterates. -/
def extractHeaderConfig (headers : List (String × String)) : CfgMap :=
  headers.foldl
    (fun config kv =>
      if kv.1 == "to-use" then
        match jsonParse kv.2 with
        | some j => setKey config "to-use" j
        | none => setKey config "to-use" (.arr [])
      else
        setKey config (kebabToCamelCase kv.1) (tryParseValue kv.2))
    []

/-- Model of `String.prototype.endsWith` (computable on character lists). -/
def strEndsWith (s suffix : String) : Bool :=
  suffix.data.isSuffixOf s.data

/-- JS whitespace trimmed by `String.prototype.trim`. -/
def jsIsSpace (c : Char) : Bool :=
  c = ' ' || c = '\t' || c = '\n' || c = '\r' || c = Char.ofNat 11 || c = Char.ofNat 12

/-- Trim JS whitespace from both ends of a character list. -/
def trimChars (l : List Char) : List Char :=
  ((l.dropWhile jsIsSpace).reverse.dropWhile jsIsSpace).reverse

/-- Split a character list at commas (model of `split(",")`; an empty input
yields one empty field, as in JS). -/
def splitCommaChars : List Char → List (List Char)
  | [] => [[]]
  | c :: rest =>
    let r := splitCommaChars rest
    if c = ',' then [] :: r
    else
      match r with
      | h :: t => (c :: h) :: t
      | [] => [[c]]

/-- `s.split(",").map(t => t.trim())` used for the `_TOOLS` fallback. -/
def splitCommaTrim (s : String) : List String :=
  (splitCommaChars s.data).map (fun l => String.mk (trimChars l))

/-- `extractEnvConfig(env)`: only string-valued entries are processed;
UPPER_CASE keys become camelCase; keys equal to `DEFAULT_TOOLS` or ending in
`_TOOLS` are parsed as JSON and degrade to a comma-split on failure; other
values go through `tryParseValue`. -/
def extractEnvConfig (env : List (String × Json)) : CfgMap :=
  env.foldl
    (fun config kv =>
      match kv.2 with
      | .str value =>
        let camelKey := upperCaseToCamelCase kv.1
        if kv.1 == "DEFAULT_TOOLS" || strEndsWith kv.1 "_TOOLS" then
          match jsonParse value with
          | some j => setKey config camelKey j
          | none => setKey config camelKey (.arr ((splitCommaTrim value).map .str))
        else
          setKey config camelKey (tryParseValue value)
      | _ => config)
    []

/-- The hardcoded `defaultConfig` of `src/config/defaults.ts`;
`getDefaultConfig()` returns a fresh copy of it. -/
def getDefaultConfig : CfgMap :=
  [ ("clientUrl", .str "http://localhost:8000"),
    ("clientDb", .str "development"),
    ("clientUser", .str "dev_user"),
    ("availableTools", .arr [.str "add", .str "calculate", .str "health_check"]),
    ("timeout", .num (mkRat 30000 1)),
    ("retries", .num (mkRat 3 1)),
    ("debug", .bool false) ]

/-- The source's `x && Array.isArray(x)` tests (arrays are always truthy, so
the conjunction holds exactly when the value is present and an array). -/
def asArr : Option Json → Option (List Json)
  | some (.arr l) => some l
  | _ => none

/-- `resolveToolFiltering`: the dedicated precedence chain for the tool
list — header `to-use` array, else env `defaultTools` array, else env
`availableTools` array, else default `availableTools` array, else `[]`. -/
def resolveToolFiltering (headerConfig envConfig defaultConfig : CfgMap) : List Json :=
  match asArr (getKey headerConfig "to-use") with
  | some l => l
  | none =>
    match asArr (getKey envConfig "defaultTools") with
    | some l => l
    | none =>
      match asArr (getKey envConfig "availableTools") with
      | some l => l
      | none =>
        match asArr (getKey defaultConfig "availableTools") with
        | some l => l
        | none => []

/-- `getToolFilteringSource`: which source supplied the tool list. -/
def getToolFilteringSource (headerConfig envConfig defaultConfig : CfgMap) : String :=
  match asArr (getKey headerConfig "to-use") with
  | some _ => "header"
  | none =>
    if (asArr (getKey envConfig "defaultTools")).isSome
        || (asArr (getKey envConfig "availableTools")).isSome then "env"
    else "default"

/-- `ConfigValidationResult` of `src/config/types.ts`. -/
structure ConfigValidationResult where
  isValid : Bool
  errors : List String
  warnings : List String
  deriving Repr, DecidableEq

/-- `ConfigResolutionContext` of `src/config/types.ts`.  The `timestamp`
field (wall-clock `Date`) is outside the model; `raw` keeps the three
extracted inputs as in the source. -/
structure ConfigResolutionContext where
  resolved : CfgMap
  sources : List (String × String)
  validation : ConfigValidationResult
  rawHeaders : CfgMap
  rawEnv : CfgMap
  rawDefaults : CfgMap
  deriving Repr, DecidableEq

/-- The per-key precedence of `resolveConfig`'s resolution loop: the first
of header, env, default that defines the key, paired with its source tag. -/
def precOf (headerConfig envConfig defaultConfig : CfgMap) (key : String) :
    Option (Json × String) :=
  match getKey headerConfig key with
  | some v => some (v, "header")
  | none =>
    match getKey envConfig key with
    | some v => some (v, "env")
    | none =>
      match getKey defaultConfig key with
      | some v => some (v, "default")
      | none => none

/-- One iteration of `resolveConfig`'s `for (const key of allKeys)` loop. -/
def resolveStep (headerConfig envConfig defaultConfig : CfgMap)
    (acc : CfgMap × List (String × String)) (key : String) :
    CfgMap × List (String × String) :=
  match precOf headerConfig envConfig defaultConfig key with
  | some (v, s) => (setKey acc.1 key v, setKey acc.2 key s)
  | none => acc

/-- The warning text pushed when the resolved tool list is empty. -/
def noToolsWarning : String :=
  "No tools available - consider setting availableTools or to-use header"

/-- `resolveConfig(headers, env)`: extract the three sources, resolve every
key by header > env > default precedence, then overwrite `availableTools`
and its attribution with the dedicated tool chain, and warn when the final
tool list is empty. -/
def resolveConfig (headers : List (String × String)) (env : List (String × Json)) :
    ConfigResolutionContext :=
  let headerConfig := extractHeaderConfig headers
  let envConfig := extractEnvConfig env
  let defaultConfig := getDefaultConfig
  let allKeys := firstDedup (keysOf defaultConfig ++ keysOf envConfig ++ keysOf headerConfig)
  let rs := allKeys.foldl (resolveStep headerConfig envConfig defaultConfig)
    ([("availableTools", .arr [])], [])
  let avail := resolveToolFiltering headerConfig envConfig defaultConfig
  let resolved := setKey rs.1 "availableTools" (.arr avail)
  let sources := setKey rs.2 "availableTools"
    (getToolFilteringSource headerConfig envConfig defaultConfig)
  let warnings := if avail.isEmpty then [noToolsWarning] else []
  { resolved := resolved
    sources := sources
    validation := { isValid := true, errors := [], warnings := warnings }
    rawHeaders := headerConfig
    rawEnv := envConfig
    rawDefaults := defaultConfig }

example :
    getKey (resolveConfig [("client-db", "proddb")] []).resolved "clientDb"
      = some (.str "proddb") := by decide
example :
    getKey (resolveConfig [] [("CLIENT_DB", .str "envdb")]).resolved "clientDb"
      = some (.str "envdb") := by decide
example :
    getKey (resolveConfig [] []).resolved "clientDb" = some (.str "development") := by decide
example :
    getKey (resolveConfig [("to-use", "[\"a\"]")] [("DEFAULT_TOOLS", .str "[\"b\",\"c\"]")]).resolved
      "availableTools" = some (.arr [.str "a"]) := by decide
example :
    getKey (resolveConfig [] [("DEFAULT_TOOLS", .str "[\"b\",\"c\"]")]).sources
      "availableTools" = some "env" := by decide

/-! ## `src/tools`: tool definitions, registry and filter -/

/-- `MCPToolMetadata` of `src/tools/types.ts` (optional fields are
`Option`). -/
structure MCPToolMetadata where
  category : Option String := none
  tags : Option (List String) := none
  version : Option String := none
  author : Option String := none
  requiresAuth : Option Bool := none
  cacheable : Option Bool := none
  estimatedDuration : Option Int := none
  deriving Repr, DecidableEq

/-- `MCPTool` of `src/tools/types.ts`.  The zod `schema` and the async
`handler` are external-collaborator values never inspected by the registry
or filter, so they are not part of the model. -/
structure MCPTool where
  name : String
  description : String
  metadata : Option MCPToolMetadata := none
  deriving Repr, DecidableEq

/-- The `value` field of a `ToolCondition`: either a JSON value or a
predicate function (`typeof condition.value === "function"`). -/
inductive CondValue where
  | json : Json → CondValue
  | fn : (Option Json → Bool) → CondValue

/-- `ToolCondition` of `src/tools/types.ts`.  `type` is an open string as in
the source (the switch has a `default` arm). -/
structure ToolCondition where
  type : String
  field : Option String := none
  value : Option CondValue := none
  validator : Option (CfgMap → Bool) := none

/-- `ToolRegistration` as constructed by `registerTool` (which defaults
`enabledByDefault` to `true` and `conditions` to `[]`, so both are total
here). -/
structure ToolRegistration where
  tool : MCPTool
  enabledByDefault : Bool
  conditions : List ToolCondition

/-- `ToolRegistry` of `src/tools/types.ts`: the name-keyed tool map and the
filter cache, both JS `Map`s modelled in insertion order. -/
structure ToolRegistry where
  tools : List (String × ToolRegistration)
  filteredCache : List (String × List MCPTool)

/-- The options argument of `registerTool` (`Omit<ToolRegistration, "tool">`
with both fields optional). -/
structure RegisterOptions where
  enabledByDefault : Option Bool := none
  conditions : Option (List ToolCondition) := none

/-- `registerTool(tool, options)`: insert or replace the registration keyed
by the tool's name and clear the filter cache. -/
def registerTool (registry : ToolRegistry) (tool : MCPTool)
    (options : RegisterOptions := {}) : ToolRegistry :=
  let registration : ToolRegistration :=
    { tool := tool
      enabledByDefault := options.enabledByDefault.getD true
      conditions := options.conditions.getD [] }
  { tools := setKey registry.tools tool.name registration
    filteredCache := [] }

/-- `registerTools(tools)`: register each tool with default options, in
order. -/
def registerTools (registry : ToolRegistry) (tools : List MCPTool) : ToolRegistry :=
  tools.foldl (fun r t => registerTool r t {}) registry

/-- `ToolFilterOptions` of `src/tools/types.ts`.  The unused `config` member
(never read by the filter) is omitted. -/
structure ToolFilterOptions where
  «include» : Option (List String) := none
  exclude : Option (List String) := none
  categories : Option (List String) := none
  requiredTags : Option (List String) := none
  includeAuthRequired : Option Bool := none

/-- One entry of the `excluded` audit list of a `ToolFilterResult`. -/
structure ExcludedEntry where
  tool : String
  reason : String
  deriving Repr, DecidableEq

/-- The `summary` counts of a `ToolFilterResult` (JS numbers, so `Int`). -/
structure FilterSummary where
  total : Int
  included : Int
  excluded : Int
  deriving Repr, DecidableEq

/-- `ToolFilterResult` of `src/tools/types.ts`. -/
structure ToolFilterResult where
  tools : List MCPTool
  excluded : List ExcludedEntry
  summary : FilterSummary
  deriving Repr, DecidableEq

/-- JS strict equality between two possibly-undefined config/condition
values.  Arrays and objects compare by reference in JS; the two operands
here come from unrelated allocations, modelled as never aliased. -/
def jsStrictEq : Option Json → Option Json → Bool
  | none, none => true
  | some .null, some .null => true
  | some (.bool a), some (.bool b) => a == b
  | some (.num a), some (.num b) => a == b
  | some (.str a), some (.str b) => a == b
  | _, _ => false

/-- `evaluateCondition(condition, config)`: `config` conditions need a
truthy `field` (absent or empty-string field fails); `environment`
conditions always hold; `custom` conditions apply their validator when
present and hold otherwise; unknown types fail. -/
def evaluateCondition (condition : ToolCondition) (config : CfgMap) : Bool :=
  if condition.type == "config" then
    match condition.field with
    | none => false
    | some f =>
      if f == "" then false
      else
        let configValue := getKey config f
        match condition.value with
        | some (.fn p) => p configValue
        | some (.json j) => jsStrictEq configValue (some j)
        | none => jsStrictEq configValue none
  else if condition.type == "environment" then true
  else if condition.type == "custom" then
    match condition.validator with
    | some v => v config
    | none => true
  else false

/-- `shouldIncludeTool(tool, registration, config, options)`: `none` models
the source's `true` (include); `some reason` models the returned exclusion
reason string. -/
def shouldIncludeTool (tool : MCPTool) (registration : ToolRegistration)
    (config : CfgMap) (options : ToolFilterOptions) : Option String :=
  if !registration.enabledByDefault then
    some "Tool is disabled by default"
  else if (match options.«include» with
           | some l => !(l.contains tool.name)
           | none => false) then
    some "Not in include list"
  else if (match options.exclude with
           | some l => l.contains tool.name
           | none => false) then
    some "In exclude list"
  else if (match options.categories with
           | some cats =>
             -- `!toolCategory || !categories.includes(toolCategory)`:
             -- an absent or empty-string category is falsy
             (match tool.metadata.bind (·.category) with
              | none => true
              | some c => c == "" || !(cats.contains c))
           | none => false) then
    some "Category not in allowed list"
  else if (match options.requiredTags with
           | some l =>
             !l.isEmpty &&
               !(l.all (fun tag => ((tool.metadata.bind (·.tags)).getD []).contains tag))
           | none => false) then
    some "Missing required tags"
  else if ((tool.metadata.bind (·.requiresAuth)).getD false
            && options.includeAuthRequired == some false) then
    some "Tool requires authentication but auth tools are excluded"
  else
    match registration.conditions.find? (fun c => !(evaluateCondition c config)) with
    | some c => some ("Condition not met: " ++ c.type)
    | none => none


/-- Decimal digits of a natural number (fueled; fuel ≥ 1 suffices up to
10^fuel). -/
def natDigits (fuel n : Nat) : List Char :=
  match fuel with
  | 0 => []
  | fuel + 1 =>
    if n < 10 then [Char.ofNat (48 + n)]
    else natDigits fuel (n / 10) ++ [Char.ofNat (48 + n % 10)]

/-- Decimal string of a natural number. -/
def natToString (n : Nat) : String :=
  String.mk (natDigits (n + 1) n)

/-- Fraction digits of `r / d` by long division (fueled; exact for the
decimal rationals produced by parsing). -/
def fracDigits (fuel r d : Nat) : List Char :=
  match fuel with
  | 0 => []
  | fuel + 1 =>
    if r = 0 then []
    else Char.ofNat (48 + r * 10 / d) :: fracDigits fuel (r * 10 % d) d

/-- Model of JS number-to-string conversion for the rationals of this
model (decimal rendering; idealizes the double shortest-representation
algorithm, which agrees on every value arising here). -/
def qToString (q : ℚ) : String :=
  let sign := if q.num < 0 then "-" else ""
  let n := q.num.natAbs
  let ip := n / q.den
  let fr := n % q.den
  if fr = 0 then sign ++ natToString ip
  else sign ++ natToString ip ++ "." ++ String.mk (fracDigits 64 fr q.den)

mutual

/-- Element rendering of `Array.prototype.join`: `null`/`undefined` render
empty, arrays join recursively, objects render `[object Object]`. -/
def jsItemStr : Json → String
  | .null => ""
  | .bool b => if b then "true" else "false"
  | .num q => qToString q
  | .str s => s
  | .arr l => jsJoinComma l
  | .obj _ => "[object Object]"

/-- `Array.prototype.join(",")` over JSON elements. -/
def jsJoinComma : List Json → String
  | [] => ""
  | [j] => jsItemStr j
  | j :: rest => jsItemStr j ++ "," ++ jsJoinComma rest

end

/-- `config.availableTools` as read by the filter.  Every call site passes a
`ResolvedConfig`, which always carries an array here; the degenerate cases
(key absent or non-array) are modelled as `[]`. -/
def getAvailableTools (config : CfgMap) : List Json :=
  match getKey config "availableTools" with
  | some (.arr l) => l
  | _ => []

/-- `createFilterCacheKey(config, options)`: join `availableTools` and each
optional filter field, `|`-separated; a missing option contributes the empty
string (`?.join(",") || ""`) and a missing `includeAuthRequired` the
sentinel `"undefined"` (`?.toString() || "undefined"`). -/
def createFilterCacheKey (config : CfgMap) (options : ToolFilterOptions) : String :=
  let keyParts : List String :=
    [ jsJoinComma (getAvailableTools config),
      String.intercalate "," ((options.«include»).getD []),
      String.intercalate "," (options.exclude.getD []),
      String.intercalate "," (options.categories.getD []),
      String.intercalate "," (options.requiredTags.getD []),
      match options.includeAuthRequired with
      | some b => if b then "true" else "false"
      | none => "undefined" ]
  String.intercalate "|" keyParts

/-- `createFilterResult(tools, registry)`: the cache-hit result — cached
tools, empty exclusion list, counts recomputed from the registry size. -/
def createFilterResult (tools : List MCPTool) (registry : ToolRegistry) : ToolFilterResult :=
  let total : Int := registry.tools.length
  let included : Int := tools.length
  { tools := tools
    excluded := []
    summary := { total := total, included := included, excluded := total - included } }

/-- One iteration of the eligibility loop of `filterTools`. -/
def eligStep (config : CfgMap) (options : ToolFilterOptions)
    (acc : List MCPTool × List ExcludedEntry) (registration : ToolRegistration) :
    List MCPTool × List ExcludedEntry :=
  match shouldIncludeTool registration.tool registration config options with
  | none => (acc.1 ++ [registration.tool], acc.2)
  | some reason => (acc.1, acc.2 ++ [{ tool := registration.tool.name, reason := reason }])

/-- The generic eligibility pass of `filterTools`: the `for` loop over all
registrations, before allowlist narrowing.  First component: the included
tools in registry order; second: the exclusion audit entries. -/
def computeEligible (registry : ToolRegistry) (config : CfgMap)
    (options : ToolFilterOptions) : List MCPTool × List ExcludedEntry :=
  (registry.tools.map (·.2)).foldl (eligStep config options) ([], [])

/-- `new Set(config.availableTools).has(tool.name)`: SameValueZero
membership of the tool name among the array's elements (only string
elements can equal a name). -/
def availHasName (avail : List Json) (n : String) : Bool :=
  avail.any (fun j =>
    match j with
    | .str s => s == n
    | _ => false)

/-- The cache-miss path of `filterTools`: eligibility pass, then allowlist
narrowing when `availableTools` is non-empty, then caching of the final
tool list. -/
def filterToolsCompute (registry : ToolRegistry) (config : CfgMap)
    (options : ToolFilterOptions) : ToolFilterResult × ToolRegistry :=
  let cacheKey := createFilterCacheKey config options
  let includedTools := (computeEligible registry config options).1
  let excluded0 := (computeEligible registry config options).2
  let avail := getAvailableTools config
  let finalTools :=
    if avail.length > 0 then includedTools.filter (fun t => availHasName avail t.name)
    else includedTools
  let excluded :=
    if avail.length > 0 then
      excluded0 ++ (includedTools.filter (fun t => !availHasName avail t.name)).map
        (fun t => { tool := t.name, reason := "Not in requested tools list" })
    else excluded0
  ({ tools := finalTools
     excluded := excluded
     summary := { total := ((registry.tools.map (·.2)).length : Int)
                  included := (finalTools.length : Int)
                  excluded := (excluded.length : Int) } },
   { registry with filteredCache := setKey registry.filteredCache cacheKey finalTools })

/-- `filterTools(config, options)` over an explicit registry state: a cache
hit returns a result rebuilt from the cached tool list; a miss runs
`filterToolsCompute`. -/
def filterTools (registry : ToolRegistry) (config : CfgMap)
    (options : ToolFilterOptions := {}) : ToolFilterResult × ToolRegistry :=
  match getKey registry.filteredCache (createFilterCacheKey config options) with
  | some cached => (createFilterResult cached registry, registry)
  | none => filterToolsCompute registry config options


/-! ### Concrete fixtures used by witnesses and counterexamples -/

/-- An always-enabled sample tool named `a`. -/
def toolA : MCPTool := { name := "a", description := "sample tool a" }

/-- An always-enabled sample tool named `b`. -/
def toolB : MCPTool := { name := "b", description := "sample tool b" }

/-- The empty registry (state after `clearRegistry()`). -/
def emptyRegistry : ToolRegistry := { tools := [], filteredCache := [] }

/-- Registry with the two enabled sample tools registered. -/
def regAB : ToolRegistry := registerTools emptyRegistry [toolA, toolB]

/-- A resolved configuration whose `availableTools` is `["a"]`. -/
def cfgOnlyA : CfgMap := [("availableTools", .arr [.str "a"])]

/-- A resolved configuration whose `availableTools` is `[]`. -/
def cfgNoRestriction : CfgMap := [("availableTools", .arr [])]

example : (filterTools regAB cfgOnlyA {}).1.tools = [toolA] := by decide
example :
    (filterTools regAB cfgOnlyA {}).1.excluded
      = [{ tool := "b", reason := "Not in requested tools list" }] := by decide
example : (filterTools regAB cfgNoRestriction {}).1.tools = [toolA, toolB] := by decide
example :
    (filterTools (registerTool regAB toolB { enabledByDefault := some false })
        cfgNoRestriction {}).1.excluded
      = [{ tool := "b", reason := "Tool is disabled by default" }] := by decide
example :
    (filterTools (filterTools regAB cfgOnlyA {}).2 cfgOnlyA {}).1.summary
      = { total := 2, included := 1, excluded := 1 } := by decide

/-! ## Generic lemmas about the JS record model -/

theorem getKey_nil {β : Type} (k : String) : getKey ([] : List (String × β)) k = none := rfl

/-- Lookup in a record with a leading property. -/
theorem getKey_cons {β : Type} (p : String × β) (m : List (String × β)) (k : String) :
    getKey (p :: m) k = if p.1 = k then some p.2 else getKey m k := by
  by_cases h : p.1 = k
  · simp [getKey, List.find?_cons_of_pos, h]
  · simp [getKey, List.find?_cons_of_neg, h]

theorem getKey_map_replace {β : Type} (k : String) (v : β) :
    ∀ (m : List (String × β)), m.any (fun p => p.1 == k) = true →
      getKey (m.map (fun p => if p.1 == k then (k, v) else p)) k = some v := by
  intro m h
  induction m with
  | nil => simp at h
  | cons p m ih =>
    by_cases hpk : p.1 = k
    · simp [hpk, getKey_cons]
    · have h' : m.any (fun p => p.1 == k) = true := by
        simpa [List.any_cons, hpk] using h
      simpa [hpk, getKey_cons] using ih h'

theorem getKey_append_single_self {β : Type} (k : String) (v : β) :
    ∀ (m : List (String × β)), m.any (fun p => p.1 == k) = false →
      getKey (m ++ [(k, v)]) k = some v := by
  intro m h
  induction m with
  | nil => simp [getKey_cons]
  | cons p m ih =>
    have hpk : ¬ p.1 = k := by
      intro hk
      simp [List.any_cons, hk] at h
    have h' : m.any (fun p => p.1 == k) = false := by
      simpa [List.any_cons, hpk] using h
    simpa [hpk, getKey_cons] using ih h'

/-- Writing a key yields that key's value on lookup. -/
theorem getKey_setKey_self {β : Type} (m : List (String × β)) (k : String) (v : β) :
    getKey (setKey m k v) k = some v := by
  unfold setKey
  by_cases h : m.any (fun p => p.1 == k) = true
  · rw [if_pos h]
    exact getKey_map_replace k v m h
  · rw [if_neg h]
    exact getKey_append_single_self k v m (Bool.eq_false_iff.mpr h)

theorem getKey_map_replace_ne {β : Type} (k k' : String) (v : β) (h : k' ≠ k) :
    ∀ (m : List (String × β)),
      getKey (m.map (fun p => if p.1 == k then (k, v) else p)) k' = getKey m k' := by
  intro m
  induction m with
  | nil => rfl
  | cons p m ih =>
    simp only [beq_iff_eq] at ih ⊢
    by_cases hpk : p.1 = k
    · simp [hpk, getKey_cons, Ne.symm h, ih]
    · rw [List.map_cons, if_neg hpk, getKey_cons, getKey_cons, ih]

theorem getKey_append_single_ne {β : Type} (k k' : String) (v : β) (h : k' ≠ k) :
    ∀ (m : List (String × β)), getKey (m ++ [(k, v)]) k' = getKey m k' := by
  intro m
  induction m with
  | nil =>
    show getKey [(k, v)] k' = getKey [] k'
    rw [getKey_cons]
    simp [Ne.symm h, getKey_nil]
  | cons p m ih =>
    by_cases hpk : p.1 = k'
    · simp [hpk, getKey_cons]
    · simp [hpk, getKey_cons, ih]

/-- Writing a key leaves every other key's lookup unchanged. -/
theorem getKey_setKey_ne {β : Type} (m : List (String × β)) (k k' : String) (v : β)
    (h : k' ≠ k) : getKey (setKey m k v) k' = getKey m k' := by
  unfold setKey
  by_cases hmem : m.any (fun p => p.1 == k) = true
  · rw [if_pos hmem]
    exact getKey_map_replace_ne k k' v h m
  · rw [if_neg hmem]
    exact getKey_append_single_ne k k' v h m

/-- A key looks up `some` exactly when it is among the record's keys. -/
theorem getKey_isSome_iff_mem {β : Type} (m : List (String × β)) (k : String) :
    (getKey m k).isSome = true ↔ k ∈ keysOf m := by
  induction m with
  | nil => simp [getKey, keysOf, List.find?]
  | cons p m ih =>
    by_cases hpk : p.1 = k
    · simp [keysOf, getKey_cons, hpk]
    · simp only [getKey_cons, if_neg hpk, keysOf, List.map_cons, List.mem_cons]
      rw [ih]
      simp [keysOf, Ne.symm hpk]

/-- Membership in the JS-set deduplication worker. -/
theorem mem_firstDedup_go (a : String) :
    ∀ (l seen : List String), a ∈ firstDedup.go seen l ↔ a ∈ l ∧ a ∉ seen := by
  intro l
  induction l with
  | nil => simp [firstDedup.go]
  | cons b l ih =>
    intro seen
    by_cases hb : b ∈ seen
    · rw [firstDedup.go, if_pos hb]
      rcases eq_or_ne a b with rfl | hab
      · simp [ih, hb]
      · simp [ih, hab]
    · rw [firstDedup.go, if_neg hb]
      rcases eq_or_ne a b with rfl | hab
      · simp [hb]
      · simp only [List.mem_cons, hab, false_or]
        rw [ih]
        simp [hab]

/-- Membership survives JS-set deduplication. -/
theorem mem_firstDedup (a : String) (l : List String) :
    a ∈ firstDedup l ↔ a ∈ l := by
  rw [firstDedup, mem_firstDedup_go]
  simp

/-! ## Lemmas about the resolution loop -/

/-- Once the resolution loop has written key `k` with its precedence value,
the remaining iterations leave it untouched. -/
theorem resolveFold_preserves (h e d : CfgMap) (k : String) (v : Json) (s : String)
    (hp : precOf h e d k = some (v, s)) :
    ∀ (ks : List String) (acc : CfgMap × List (String × String)),
      getKey acc.1 k = some v → getKey acc.2 k = some s →
      getKey (ks.foldl (resolveStep h e d) acc).1 k = some v ∧
      getKey (ks.foldl (resolveStep h e d) acc).2 k = some s := by
  intro ks
  induction ks with
  | nil => intro acc h1 h2; exact ⟨h1, h2⟩
  | cons k' ks ih =>
    intro acc h1 h2
    rw [List.foldl_cons]
    by_cases hkk : k' = k
    · subst hkk
      apply ih
      · simp only [resolveStep, hp]
        exact getKey_setKey_self _ _ _
      · simp only [resolveStep, hp]
        exact getKey_setKey_self _ _ _
    · have hne : k ≠ k' := fun hh => hkk hh.symm
      apply ih
      · cases hcase : precOf h e d k' with
        | some vs =>
          obtain ⟨v', s'⟩ := vs
          simp only [resolveStep, hcase]
          rw [getKey_setKey_ne _ _ _ _ hne]
          exact h1
        | none =>
          simp only [resolveStep, hcase]
          exact h1
      · cases hcase : precOf h e d k' with
        | some vs =>
          obtain ⟨v', s'⟩ := vs
          simp only [resolveStep, hcase]
          rw [getKey_setKey_ne _ _ _ _ hne]
          exact h2
        | none =>
          simp only [resolveStep, hcase]
          exact h2

/-- After the resolution loop has run over a key list containing `k`, the
accumulator holds `k`'s precedence value and source. -/
theorem resolveFold_computes (h e d : CfgMap) (k : String) (v : Json) (s : String)
    (hp : precOf h e d k = some (v, s)) :
    ∀ (ks : List String) (acc : CfgMap × List (String × String)), k ∈ ks →
      getKey (ks.foldl (resolveStep h e d) acc).1 k = some v ∧
      getKey (ks.foldl (resolveStep h e d) acc).2 k = some s := by
  intro ks
  induction ks with
  | nil => intro acc hk; cases hk
  | cons k' ks ih =>
    intro acc hk
    rw [List.foldl_cons]
    by_cases hkk : k' = k
    · subst hkk
      apply resolveFold_preserves h e d k' v s hp
      · simp only [resolveStep, hp]
        exact getKey_setKey_self _ _ _
      · simp only [resolveStep, hp]
        exact getKey_setKey_self _ _ _
    · have : k ∈ ks := by
        rcases List.mem_cons.mp hk with h1 | h1
        · exact absurd h1.symm hkk
        · exact h1
      exact ih _ this

/-- `resolved` of a resolution context at a key other than `availableTools`
is the loop accumulator's value (the final `availableTools` overwrite does
not touch it). -/
theorem getKey_resolveConfig_resolved_ne (headers : List (String × String))
    (env : List (String × Json)) (k : String) (hk : k ≠ "availableTools") :
    getKey (resolveConfig headers env).resolved k =
      getKey ((firstDedup (keysOf getDefaultConfig ++ keysOf (extractEnvConfig env)
          ++ keysOf (extractHeaderConfig headers))).foldl
        (resolveStep (extractHeaderConfig headers) (extractEnvConfig env) getDefaultConfig)
        ([("availableTools", .arr [])], [])).1 k :=
  getKey_setKey_ne _ _ _ _ hk

/-- `sources` of a resolution context at a key other than `availableTools`
is the loop accumulator's attribution. -/
theorem getKey_resolveConfig_sources_ne (headers : List (String × String))
    (env : List (String × Json)) (k : String) (hk : k ≠ "availableTools") :
    getKey (resolveConfig headers env).sources k =
      getKey ((firstDedup (keysOf getDefaultConfig ++ keysOf (extractEnvConfig env)
          ++ keysOf (extractHeaderConfig headers))).foldl
        (resolveStep (extractHeaderConfig headers) (extractEnvConfig env) getDefaultConfig)
        ([("availableTools", .arr [])], [])).2 k :=
  getKey_setKey_ne _ _ _ _ hk

/-- A key defined by one of the three sources is in the loop's key set. -/
theorem mem_allKeys_of_defined (headers : List (String × String))
    (env : List (String × Json)) (k : String)
    (hdef : ((getKey (extractHeaderConfig headers) k).isSome
        || (getKey (extractEnvConfig env) k).isSome
        || (getKey getDefaultConfig k).isSome) = true) :
    k ∈ firstDedup (keysOf getDefaultConfig ++ keysOf (extractEnvConfig env)
        ++ keysOf (extractHeaderConfig headers)) := by
  rw [mem_firstDedup]
  simp only [List.mem_append]
  rcases Bool.or_eq_true_iff.mp hdef with hde | hd
  · rcases Bool.or_eq_true_iff.mp hde with hh | he
    · have := (getKey_isSome_iff_mem _ _).mp hh
      tauto
    · have := (getKey_isSome_iff_mem _ _).mp he
      tauto
  · have := (getKey_isSome_iff_mem _ _).mp hd
    tauto

/-! ## C1: generic precedence -/

/-- **C1, counterexample.**  The claim asserts request-source precedence for
*every* canonical key, but for `availableTools` the dedicated tool chain
overrides generic precedence: with an `available-tools` header (normalized
to the canonical key `availableTools`), an `AVAILABLE_TOOLS` env var, and
the fallback's own `availableTools`, all three sources define the key, yet
resolution yields the *deployment* value with source `env`, not the request
value with source `header`. -/
theorem c1_counterexample :
    getKey (resolveConfig [("available-tools", "[\"x\"]")]
        [("AVAILABLE_TOOLS", Json.str "[\"y\"]")]).rawHeaders "availableTools"
      = some (.arr [.str "x"]) ∧
    getKey (resolveConfig [("available-tools", "[\"x\"]")]
        [("AVAILABLE_TOOLS", Json.str "[\"y\"]")]).rawEnv "availableTools"
      = some (.arr [.str "y"]) ∧
    (getKey (resolveConfig [("available-tools", "[\"x\"]")]
        [("AVAILABLE_TOOLS", Json.str "[\"y\"]")]).rawDefaults "availableTools").isSome = true ∧
    getKey (resolveConfig [("available-tools", "[\"x\"]")]
        [("AVAILABLE_TOOLS", Json.str "[\"y\"]")]).resolved "availableTools"
      = some (.arr [.str "y"]) ∧
    getKey (resolveConfig [("available-tools", "[\"x\"]")]
        [("AVAILABLE_TOOLS", Json.str "[\"y\"]")]).sources "availableTools"
      = some "env" ∧
    Json.arr [.str "y"] ≠ Json.arr [.str "x"] ∧ ("env" : String) ≠ "header" := by
  decide

/-- **C1 (amended).**  Generic precedence holds for every canonical key
*other than `availableTools`* (whose value and attribution come from the
dedicated tool chain instead): a key defined in the request (header) source
resolves to that value with source `header`; a key absent there but defined
in the deployment (env) source resolves to the env value with source `env`;
a key defined only in the fallback (default) source resolves to the default
value with source `default`.  Absent or undefined sources are skipped. -/
theorem c1_generic_precedence (headers : List (String × String)) (env : List (String × Json))
    (k : String) (hk : k ≠ "availableTools") :
    (∀ v, getKey (resolveConfig headers env).rawHeaders k = some v →
        getKey (resolveConfig headers env).resolved k = some v ∧
        getKey (resolveConfig headers env).sources k = some "header") ∧
    (getKey (resolveConfig headers env).rawHeaders k = none →
      ∀ v, getKey (resolveConfig headers env).rawEnv k = some v →
        getKey (resolveConfig headers env).resolved k = some v ∧
        getKey (resolveConfig headers env).sources k = some "env") ∧
    (getKey (resolveConfig headers env).rawHeaders k = none →
      getKey (resolveConfig headers env).rawEnv k = none →
      ∀ v, getKey (resolveConfig headers env).rawDefaults k = some v →
        getKey (resolveConfig headers env).resolved k = some v ∧
        getKey (resolveConfig headers env).sources k = some "default") := by
  have hrawH : (resolveConfig headers env).rawHeaders = extractHeaderConfig headers := rfl
  have hrawE : (resolveConfig headers env).rawEnv = extractEnvConfig env := rfl
  have hrawD : (resolveConfig headers env).rawDefaults = getDefaultConfig := rfl
  refine ⟨?_, ?_, ?_⟩
  · intro v hv
    rw [hrawH] at hv
    have hp : precOf (extractHeaderConfig headers) (extractEnvConfig env) getDefaultConfig k
        = some (v, "header") := by
      simp only [precOf, hv]
    have hmem := mem_allKeys_of_defined headers env k (by simp [hv])
    have hfold := resolveFold_computes _ _ _ _ _ _ hp _
      ([("availableTools", .arr [])], []) hmem
    rw [getKey_resolveConfig_resolved_ne headers env k hk,
      getKey_resolveConfig_sources_ne headers env k hk]
    exact hfold
  · intro hnoH v hv
    rw [hrawH] at hnoH
    rw [hrawE] at hv
    have hp : precOf (extractHeaderConfig headers) (extractEnvConfig env) getDefaultConfig k
        = some (v, "env") := by
      simp only [precOf, hnoH, hv]
    have hmem := mem_allKeys_of_defined headers env k (by simp [hv])
    have hfold := resolveFold_computes _ _ _ _ _ _ hp _
      ([("availableTools", .arr [])], []) hmem
    rw [getKey_resolveConfig_resolved_ne headers env k hk,
      getKey_resolveConfig_sources_ne headers env k hk]
    exact hfold
  · intro hnoH hnoE v hv
    rw [hrawH] at hnoH
    rw [hrawE] at hnoE
    rw [hrawD] at hv
    have hp : precOf (extractHeaderConfig headers) (extractEnvConfig env) getDefaultConfig k
        = some (v, "default") := by
      simp only [precOf, hnoH, hnoE, hv]
    have hmem := mem_allKeys_of_defined headers env k (by simp [hv])
    have hfold := resolveFold_computes _ _ _ _ _ _ hp _
      ([("availableTools", .arr [])], []) hmem
    rw [getKey_resolveConfig_resolved_ne headers env k hk,
      getKey_resolveConfig_sources_ne headers env k hk]
    exact hfold

/-- **C1, witness.**  A header-defined key wins over the env and the
default definitions of the same canonical key (`client-db` header vs
`CLIENT_DB` env var vs the default `clientDb`). -/
theorem c1_generic_precedence_witness :
    ("clientDb" : String) ≠ "availableTools" ∧
    getKey (resolveConfig [("client-db", "proddb")] [("CLIENT_DB", Json.str "envdb")]).rawHeaders
      "clientDb" = some (.str "proddb") ∧
    (getKey (resolveConfig [("client-db", "proddb")] [("CLIENT_DB", Json.str "envdb")]).resolved
        "clientDb" = some (.str "proddb") ∧
     getKey (resolveConfig [("client-db", "proddb")] [("CLIENT_DB", Json.str "envdb")]).sources
        "clientDb" = some "header") :=
  ⟨by decide, by decide,
    (c1_generic_precedence [("client-db", "proddb")] [("CLIENT_DB", Json.str "envdb")]
        "clientDb" (by decide)).1 (.str "proddb") (by decide)⟩

/-! ## C2: tool-list precedence -/

/-- **C2.**  `resolveConfig` binds `availableTools` (value and attribution)
by the dedicated chain, overriding generic precedence: the request source's
`to-use` array when present (presence alone wins, even when empty), else the
deployment source's `defaultTools` array, else the deployment source's
`availableTools` array, else the fallback source's `availableTools` array,
else the empty list; the recorded source names the branch that supplied the
value (`header`/`env`/`default`; the final empty-list branch is also
attributed `default`). -/
theorem c2_tool_list_precedence (headers : List (String × String))
    (env : List (String × Json)) :
    (getKey (resolveConfig headers env).resolved "availableTools"
      = some (.arr (resolveToolFiltering (extractHeaderConfig headers)
          (extractEnvConfig env) getDefaultConfig)) ∧
     getKey (resolveConfig headers env).sources "availableTools"
      = some (getToolFilteringSource (extractHeaderConfig headers)
          (extractEnvConfig env) getDefaultConfig)) ∧
    (∀ l, asArr (getKey (extractHeaderConfig headers) "to-use") = some l →
      resolveToolFiltering (extractHeaderConfig headers) (extractEnvConfig env)
          getDefaultConfig = l ∧
      getToolFilteringSource (extractHeaderConfig headers) (extractEnvConfig env)
          getDefaultConfig = "header") ∧
    (asArr (getKey (extractHeaderConfig headers) "to-use") = none →
      (∀ l, asArr (getKey (extractEnvConfig env) "defaultTools") = some l →
        resolveToolFiltering (extractHeaderConfig headers) (extractEnvConfig env)
            getDefaultConfig = l ∧
        getToolFilteringSource (extractHeaderConfig headers) (extractEnvConfig env)
            getDefaultConfig = "env") ∧
      (asArr (getKey (extractEnvConfig env) "defaultTools") = none →
        (∀ l, asArr (getKey (extractEnvConfig env) "availableTools") = some l →
          resolveToolFiltering (extractHeaderConfig headers) (extractEnvConfig env)
              getDefaultConfig = l ∧
          getToolFilteringSource (extractHeaderConfig headers) (extractEnvConfig env)
              getDefaultConfig = "env") ∧
        (asArr (getKey (extractEnvConfig env) "availableTools") = none →
          (∀ l, asArr (getKey getDefaultConfig "availableTools") = some l →
            resolveToolFiltering (extractHeaderConfig headers) (extractEnvConfig env)
                getDefaultConfig = l ∧
            getToolFilteringSource (extractHeaderConfig headers) (extractEnvConfig env)
                getDefaultConfig = "default") ∧
          (asArr (getKey getDefaultConfig "availableTools") = none →
            resolveToolFiltering (extractHeaderConfig headers) (extractEnvConfig env)
                getDefaultConfig = [] ∧
            getToolFilteringSource (extractHeaderConfig headers) (extractEnvConfig env)
                getDefaultConfig = "default")))) := by
  refine ⟨⟨getKey_setKey_self _ _ _, getKey_setKey_self _ _ _⟩, ?_, ?_⟩
  · intro l hl
    constructor
    · simp only [resolveToolFiltering, hl]
    · simp only [getToolFilteringSource, hl]
  · intro hno
    refine ⟨?_, ?_⟩
    · intro l hl
      constructor
      · simp only [resolveToolFiltering, hno, hl]
      · simp only [getToolFilteringSource, hno, hl, Option.isSome_some, Bool.true_or, if_true]
    · intro hnoDT
      refine ⟨?_, ?_⟩
      · intro l hl
        constructor
        · simp only [resolveToolFiltering, hno, hnoDT, hl]
        · simp only [getToolFilteringSource, hno, hnoDT, hl, Option.isSome_some,
            Option.isSome_none, Bool.false_or, if_true]
      · intro hnoAT
        refine ⟨?_, ?_⟩
        · intro l hl
          constructor
          · simp only [resolveToolFiltering, hno, hnoDT, hnoAT, hl]
          · simp [getToolFilteringSource, hno, hnoDT, hnoAT]
        · intro hnoD
          constructor
          · simp only [resolveToolFiltering, hno, hnoDT, hnoAT, hnoD]
          · simp [getToolFilteringSource, hno, hnoDT, hnoAT]

/-- **C2, witness.**  The spec's own example: request `to-use: ["a"]`,
deployment `DEFAULT_TOOLS=["b","c"]` — the request branch supplies the value
and the attribution. -/
theorem c2_tool_list_precedence_witness :
    (getKey (resolveConfig [("to-use", "[\"a\"]")]
        [("DEFAULT_TOOLS", Json.str "[\"b\",\"c\"]")]).resolved "availableTools"
      = some (.arr [.str "a"]) ∧
     getKey (resolveConfig [("to-use", "[\"a\"]")]
        [("DEFAULT_TOOLS", Json.str "[\"b\",\"c\"]")]).sources "availableTools"
      = some "header") ∧
    resolveToolFiltering (extractHeaderConfig [("to-use", "[\"a\"]")])
        (extractEnvConfig [("DEFAULT_TOOLS", Json.str "[\"b\",\"c\"]")]) getDefaultConfig
      = [.str "a"] := by
  have h := c2_tool_list_precedence [("to-use", "[\"a\"]")]
    [("DEFAULT_TOOLS", Json.str "[\"b\",\"c\"]")]
  have hbranch := h.2.1 [.str "a"] (by decide)
  refine ⟨⟨?_, ?_⟩, hbranch.1⟩
  · rw [h.1.1, hbranch.1]
  · rw [h.1.2, hbranch.2]

/-! ## Lemmas about the eligibility pass -/

/-- The eligibility fold from an arbitrary accumulator appends to it. -/
theorem eligFold_acc (config : CfgMap) (options : ToolFilterOptions) :
    ∀ (regs : List ToolRegistration) (acc : List MCPTool × List ExcludedEntry),
      (regs.foldl (eligStep config options) acc).1
          = acc.1 ++ (regs.foldl (eligStep config options) ([], [])).1 ∧
      (regs.foldl (eligStep config options) acc).2
          = acc.2 ++ (regs.foldl (eligStep config options) ([], [])).2 := by
  intro regs
  induction regs with
  | nil => intro acc; simp
  | cons reg regs ih =>
    intro acc
    rw [List.foldl_cons, List.foldl_cons]
    cases hs : shouldIncludeTool reg.tool reg config options with
    | none =>
      have h1 := ih (eligStep config options acc reg)
      have h2 := ih (eligStep config options ([], []) reg)
      simp only [eligStep, hs] at h1 h2 ⊢
      rw [h1.1, h1.2, h2.1, h2.2]
      simp
    | some reason =>
      have h1 := ih (eligStep config options acc reg)
      have h2 := ih (eligStep config options ([], []) reg)
      simp only [eligStep, hs] at h1 h2 ⊢
      rw [h1.1, h1.2, h2.1, h2.2]
      simp

/-- Partition of the eligibility fold over an explicit registration list. -/
theorem eligFold_partition_perm (config : CfgMap) (options : ToolFilterOptions) :
    ∀ regs : List ToolRegistration,
      (((regs.foldl (eligStep config options) ([], [])).1.map (fun t => t.name))
        ++ ((regs.foldl (eligStep config options) ([], [])).2.map (fun entry => entry.tool))).Perm
        (regs.map (fun r => r.tool.name)) := by
  intro regs
  induction regs with
  | nil => simp
  | cons reg regs ih =>
    rw [List.foldl_cons]
    have hacc := eligFold_acc config options regs (eligStep config options ([], []) reg)
    cases hs : shouldIncludeTool reg.tool reg config options with
    | none =>
      simp only [eligStep, hs, List.nil_append] at hacc ⊢
      rw [hacc.1, hacc.2]
      simp only [List.map_cons, List.map_append, List.singleton_append, List.cons_append]
      exact ih.cons reg.tool.name
    | some reason =>
      simp only [eligStep, hs, List.nil_append] at hacc ⊢
      rw [hacc.1, hacc.2]
      simp only [List.map_cons, List.map_append, List.singleton_append, List.cons_append]
      exact List.perm_middle.trans (ih.cons reg.tool.name)

/-- Each registration lands exactly once, by tool name, across the included
and excluded components of the eligibility pass. -/
theorem computeEligible_partition_perm (registry : ToolRegistry) (config : CfgMap)
    (options : ToolFilterOptions) :
    ((computeEligible registry config options).1.map (fun t => t.name)
      ++ (computeEligible registry config options).2.map (fun entry => entry.tool)).Perm
      (registry.tools.map (fun p => p.2.tool.name)) := by
  have h := eligFold_partition_perm config options (registry.tools.map (·.2))
  rw [List.map_map] at h
  exact h

/-- Counting form of the partition: included + excluded = registry size. -/
theorem computeEligible_counts (registry : ToolRegistry) (config : CfgMap)
    (options : ToolFilterOptions) :
    (computeEligible registry config options).1.length
      + (computeEligible registry config options).2.length
      = registry.tools.length := by
  have h := (computeEligible_partition_perm registry config options).length_eq
  simpa using h

/-! ## C3: allowlist narrowing -/

/-- **C3, counterexample.**  The narrowing step is real, but the recorded
reason string is `"Not in requested tools list"` (capital `N`), not the
claimed `"not in requested tools list"`: with enabled tools `a`, `b` and
`availableTools = ["a"]`, the filter excludes `b` with the capitalized
reason, and no exclusion entry carries the claimed lowercase reason. -/
theorem c3_counterexample :
    (filterTools regAB cfgOnlyA {}).1.tools = [toolA] ∧
    (filterTools regAB cfgOnlyA {}).1.excluded
      = [{ tool := "b", reason := "Not in requested tools list" }] ∧
    ((filterTools regAB cfgOnlyA {}).1.excluded.filter
        (fun e => e.reason == "not in requested tools list")) = [] ∧
    ("Not in requested tools list" : String) ≠ "not in requested tools list" := by
  decide

/-- **C3 (amended).**  On a cache miss with a non-empty
`resolvedConfig.availableTools`, the tools surviving generic eligibility are
intersected with the allowlisted name set, and every survivor not in the set
is appended to the exclusion list with reason `"Not in requested tools
list"` (capitalized, unlike the spec's quotation). -/
theorem c3_allowlist_narrowing (registry : ToolRegistry) (config : CfgMap)
    (options : ToolFilterOptions)
    (hmiss : getKey registry.filteredCache (createFilterCacheKey config options) = none)
    (hne : (getAvailableTools config).length > 0) :
    (filterTools registry config options).1.tools
      = (computeEligible registry config options).1.filter
          (fun t => availHasName (getAvailableTools config) t.name) ∧
    (filterTools registry config options).1.excluded
      = (computeEligible registry config options).2
        ++ ((computeEligible registry config options).1.filter
              (fun t => !availHasName (getAvailableTools config) t.name)).map
            (fun t => { tool := t.name, reason := "Not in requested tools list" }) := by
  simp only [filterTools, hmiss, filterToolsCompute, if_pos hne]
  exact ⟨trivial, trivial⟩

/-- **C3, witness.**  The amended claim at the spec's concrete scenario:
two enabled tools `a`, `b`, allowlist `["a"]`, on a cold cache. -/
theorem c3_allowlist_narrowing_witness :
    (filterTools regAB cfgOnlyA {}).1.tools
      = (computeEligible regAB cfgOnlyA {}).1.filter
          (fun t => availHasName (getAvailableTools cfgOnlyA) t.name) ∧
    (filterTools regAB cfgOnlyA {}).1.excluded
      = (computeEligible regAB cfgOnlyA {}).2
        ++ ((computeEligible regAB cfgOnlyA {}).1.filter
              (fun t => !availHasName (getAvailableTools cfgOnlyA) t.name)).map
            (fun t => { tool := t.name, reason := "Not in requested tools list" }) :=
  c3_allowlist_narrowing regAB cfgOnlyA {} (by decide) (by decide)

/-! ## C4: empty allowlist applies no narrowing -/

/-- **C4.**  On a cache miss with `resolvedConfig.availableTools = []`, no
allowlist narrowing happens: the returned tools are exactly the
registry-eligible ones and the exclusion list is exactly the eligibility
pass's audit trail (no allowlist entries). -/
theorem c4_empty_list_no_restriction (registry : ToolRegistry) (config : CfgMap)
    (options : ToolFilterOptions)
    (hmiss : getKey registry.filteredCache (createFilterCacheKey config options) = none)
    (hempty : getAvailableTools config = []) :
    (filterTools registry config options).1.tools
      = (computeEligible registry config options).1 ∧
    (filterTools registry config options).1.excluded
      = (computeEligible registry config options).2 := by
  have hne : ¬ (getAvailableTools config).length > 0 := by
    rw [hempty]
    simp
  simp only [filterTools, hmiss, filterToolsCompute, if_neg hne]
  exact ⟨trivial, trivial⟩

/-- **C4, witness.**  Empty allowlist, two enabled tools: both survive. -/
theorem c4_empty_list_no_restriction_witness :
    ((filterTools regAB cfgNoRestriction {}).1.tools
        = (computeEligible regAB cfgNoRestriction {}).1 ∧
     (filterTools regAB cfgNoRestriction {}).1.excluded
        = (computeEligible regAB cfgNoRestriction {}).2) ∧
    (filterTools regAB cfgNoRestriction {}).1.tools = [toolA, toolB] :=
  ⟨c4_empty_list_no_restriction regAB cfgNoRestriction {} (by decide) (by decide),
   by decide⟩

/-- Filtering a list by a Boolean predicate and by its negation partitions
its length. -/
theorem length_filter_not_partition {α : Type} (p : α → Bool) :
    ∀ l : List α, (l.filter p).length + (l.filter (fun a => !p a)).length = l.length := by
  intro l
  induction l with
  | nil => rfl
  | cons a l ih =>
    by_cases h : p a <;> simp [List.filter_cons, h] <;> omega

/-- Counts on the cache-miss path: the result's tools and exclusion entries
together count every registration. -/
theorem filterToolsCompute_counts (registry : ToolRegistry) (config : CfgMap)
    (options : ToolFilterOptions) :
    (filterToolsCompute registry config options).1.tools.length
      + (filterToolsCompute registry config options).1.excluded.length
      = registry.tools.length := by
  have helig := computeEligible_counts registry config options
  by_cases hne : (getAvailableTools config).length > 0
  · have hsplit := length_filter_not_partition
      (fun t => availHasName (getAvailableTools config) t.name)
      (computeEligible registry config options).1
    simp only [filterToolsCompute, if_pos hne, List.length_append, List.length_map]
    omega
  · simp only [filterToolsCompute, if_neg hne]
    exact helig

/-! ## C5: cache coherence -/

/-- **C5.**  After any `filterTools` call, the updated cache answers the key
of that call with the returned tools; a second call with the same resolved
configuration and options (and no registry mutation in between) is a cache
hit: it leaves the state unchanged and returns the identical tools list and
an equal summary, but an empty exclusion list, with the summary recomputed
as `total = registry size`, `included = cached length`,
`excluded = total − included`. -/
theorem c5_cache_coherence (registry : ToolRegistry) (config : CfgMap)
    (options : ToolFilterOptions) :
    getKey ((filterTools registry config options).2).filteredCache
        (createFilterCacheKey config options)
      = some ((filterTools registry config options).1.tools) ∧
    (filterTools (filterTools registry config options).2 config options).2
      = (filterTools registry config options).2 ∧
    (filterTools (filterTools registry config options).2 config options).1.tools
      = (filterTools registry config options).1.tools ∧
    (filterTools (filterTools registry config options).2 config options).1.excluded = [] ∧
    (filterTools (filterTools registry config options).2 config options).1.summary
      = (filterTools registry config options).1.summary ∧
    (filterTools (filterTools registry config options).2 config options).1.summary.total
      = (((filterTools registry config options).2).tools.length : Int) ∧
    (filterTools (filterTools registry config options).2 config options).1.summary.excluded
      = (filterTools (filterTools registry config options).2 config options).1.summary.total
        - (filterTools (filterTools registry config options).2 config options).1.summary.included := by
  cases hcache : getKey registry.filteredCache (createFilterCacheKey config options) with
  | some cached =>
    have hr1 : filterTools registry config options
        = (createFilterResult cached registry, registry) := by
      simp only [filterTools, hcache]
    rw [hr1]
    have hr2 : filterTools ((createFilterResult cached registry, registry) :
        ToolFilterResult × ToolRegistry).2 config options
        = (createFilterResult cached registry, registry) := by
      simp only [filterTools, hcache]
    rw [hr2]
    exact ⟨hcache, rfl, rfl, rfl, rfl, rfl, rfl⟩
  | none =>
    have hr1 : filterTools registry config options
        = filterToolsCompute registry config options := by
      simp only [filterTools, hcache]
    have hstate : (filterToolsCompute registry config options).2
        = { registry with
            filteredCache := setKey registry.filteredCache
              (createFilterCacheKey config options)
              ((filterToolsCompute registry config options).1.tools) } := rfl
    have hkey : getKey ((filterToolsCompute registry config options).2).filteredCache
        (createFilterCacheKey config options)
        = some ((filterToolsCompute registry config options).1.tools) :=
      getKey_setKey_self registry.filteredCache _ _
    have hr2 : filterTools (filterToolsCompute registry config options).2 config options
        = (createFilterResult ((filterToolsCompute registry config options).1.tools)
              (filterToolsCompute registry config options).2,
           (filterToolsCompute registry config options).2) := by
      simp only [filterTools, hkey]
    have htoolsmap : ((registry.tools.map (fun p => p.2)).length : Int)
        = (registry.tools.length : Int) := by
      simp
    have hcounts := filterToolsCompute_counts registry config options
    have htotal1 : (filterToolsCompute registry config options).1.summary.total
        = ((registry.tools.map (fun p => p.2)).length : Int) := rfl
    have hincl1 : (filterToolsCompute registry config options).1.summary.included
        = ((filterToolsCompute registry config options).1.tools.length : Int) := rfl
    have hexcl1 : (filterToolsCompute registry config options).1.summary.excluded
        = ((filterToolsCompute registry config options).1.excluded.length : Int) := rfl
    have hstate_tools : ((filterToolsCompute registry config options).2).tools
        = registry.tools := rfl
    rw [hr1, hr2]
    refine ⟨hkey, rfl, rfl, rfl, ?_, ?_, rfl⟩
    · show ({ total := (((filterToolsCompute registry config options).2).tools.length : Int),
              included := ((filterToolsCompute registry config options).1.tools.length : Int),
              excluded := (((filterToolsCompute registry config options).2).tools.length : Int)
                - ((filterToolsCompute registry config options).1.tools.length : Int) }
            : FilterSummary)
        = (filterToolsCompute registry config options).1.summary
      rw [hstate_tools]
      have hsum : (filterToolsCompute registry config options).1.summary
          = { total := ((registry.tools.map (fun p => p.2)).length : Int),
              included := ((filterToolsCompute registry config options).1.tools.length : Int),
              excluded := ((filterToolsCompute registry config options).1.excluded.length : Int) } := rfl
      rw [hsum]
      simp only [FilterSummary.mk.injEq, List.length_map]
      refine ⟨trivial, trivial, ?_⟩
      omega
    · show (((filterToolsCompute registry config options).2).tools.length : Int)
        = (((filterToolsCompute registry config options).2).tools.length : Int)
      rfl

/-- A list is a permutation of its kept and dropped parts under a Boolean
filter. -/
theorem filter_not_append_perm {α : Type} (p : α → Bool) :
    ∀ l : List α, ((l.filter p) ++ (l.filter (fun a => !p a))).Perm l := by
  intro l
  induction l with
  | nil => simp
  | cons a l ih =>
    by_cases h : p a
    · simp only [List.filter_cons, h, Bool.not_true, if_true, if_false]
      simpa using ih.cons a
    · have h' : p a = false := Bool.eq_false_iff.mpr h
      simp only [List.filter_cons, h', Bool.not_false, if_true, if_false]
      exact List.perm_middle.trans (ih.cons a)

/-- On the cache-miss path every registered tool name appears exactly once
across the returned tools and the exclusion audit list. -/
theorem filterToolsCompute_partition_perm (registry : ToolRegistry) (config : CfgMap)
    (options : ToolFilterOptions) :
    (((filterToolsCompute registry config options).1.tools.map (fun t => t.name))
      ++ ((filterToolsCompute registry config options).1.excluded.map (fun e => e.tool))).Perm
      (registry.tools.map (fun p => p.2.tool.name)) := by
  have hpart := computeEligible_partition_perm registry config options
  by_cases hne : (getAvailableTools config).length > 0
  · simp only [filterToolsCompute, if_pos hne, List.map_append, List.map_map,
      Function.comp_def]
    have hAB : (((computeEligible registry config options).1.filter
          (fun t => availHasName (getAvailableTools config) t.name)).map (fun t => t.name)
        ++ ((computeEligible registry config options).1.filter
          (fun t => !availHasName (getAvailableTools config) t.name)).map (fun t => t.name)).Perm
        ((computeEligible registry config options).1.map (fun t => t.name)) := by
      rw [← List.map_append]
      exact (filter_not_append_perm (fun t => availHasName (getAvailableTools config) t.name)
        (computeEligible registry config options).1).map (fun t => t.name)
    refine List.Perm.trans ?_ hpart
    refine List.Perm.trans (List.Perm.append_left _ List.perm_append_comm) ?_
    rw [← List.append_assoc]
    exact hAB.append_right _
  · simp only [filterToolsCompute, if_neg hne]
    exact hpart

/-! ## C10: partition invariant -/

/-- **C10.**  For a registry without duplicate tool names, a cache-miss
`filterTools` call partitions the registered tool names between the
returned tools and the exclusion entries (a permutation of the registry's
names, with no duplicates and none dropped), so
`summary.included + summary.excluded = summary.total`; and on a cache hit
the count identity holds by construction, the excluded count being
`total − included`. -/
theorem c10_partition (registry : ToolRegistry) (config : CfgMap) (options : ToolFilterOptions)
    (hnames : (registry.tools.map (fun p => p.2.tool.name)).Nodup) :
    (getKey registry.filteredCache (createFilterCacheKey config options) = none →
      (((filterTools registry config options).1.tools.map (fun t => t.name)
        ++ (filterTools registry config options).1.excluded.map (fun e => e.tool)).Perm
        (registry.tools.map (fun p => p.2.tool.name)) ∧
       ((filterTools registry config options).1.tools.map (fun t => t.name)
        ++ (filterTools registry config options).1.excluded.map (fun e => e.tool)).Nodup ∧
       (filterTools registry config options).1.summary.included
         + (filterTools registry config options).1.summary.excluded
         = (filterTools registry config options).1.summary.total)) ∧
    (∀ cached, getKey registry.filteredCache (createFilterCacheKey config options) = some cached →
      (filterTools registry config options).1.summary.excluded
        = (filterTools registry config options).1.summary.total
          - (filterTools registry config options).1.summary.included) := by
  constructor
  · intro hmiss
    have hr1 : filterTools registry config options
        = filterToolsCompute registry config options := by
      simp only [filterTools, hmiss]
    rw [hr1]
    have hperm := filterToolsCompute_partition_perm registry config options
    refine ⟨hperm, hperm.nodup_iff.mpr hnames, ?_⟩
    have hcounts := filterToolsCompute_counts registry config options
    have hincl : (filterToolsCompute registry config options).1.summary.included
        = ((filterToolsCompute registry config options).1.tools.length : Int) := rfl
    have hexcl : (filterToolsCompute registry config options).1.summary.excluded
        = ((filterToolsCompute registry config options).1.excluded.length : Int) := rfl
    have htot : (filterToolsCompute registry config options).1.summary.total
        = ((registry.tools.map (fun p => p.2)).length : Int) := rfl
    rw [hincl, hexcl, htot, List.length_map]
    omega
  · intro cached hhit
    have hr1 : filterTools registry config options
        = (createFilterResult cached registry, registry) := by
      simp only [filterTools, hhit]
    rw [hr1]
    rfl

/-- **C10, witness.**  The partition at a concrete cold-cache call: two
enabled tools, allowlist `["a"]`. -/
theorem c10_partition_witness :
    ((filterTools regAB cfgOnlyA {}).1.tools.map (fun t => t.name)
      ++ (filterTools regAB cfgOnlyA {}).1.excluded.map (fun e => e.tool)).Perm
      (regAB.tools.map (fun p => p.2.tool.name)) ∧
    (filterTools regAB cfgOnlyA {}).1.summary.included
      + (filterTools regAB cfgOnlyA {}).1.summary.excluded
      = (filterTools regAB cfgOnlyA {}).1.summary.total := by
  have h := (c10_partition regAB cfgOnlyA {} (by decide)).1 (by decide)
  exact ⟨h.1, h.2.2⟩

/-! ## C6: value coercion -/

/-- Whether a JSON value is a number. -/
def Json.isNum : Json → Bool
  | .num _ => true
  | _ => false

/-- **C6, counterexample.**  `"00"` strictly matches the coercion's
integer-numeral pattern, yet `tryParseValue` returns it unchanged as a
string (the inner `JSON.parse` rejects numerals with superfluous leading
zeros), contradicting the claim that a matching numeral yields a number. -/
theorem c6_counterexample :
    matchesNumeral "00" = true ∧
    (tryParseValue "00").isNum = false ∧
    tryParseValue "00" = .str "00" := by
  decide

/-- **C6 (amended).**  A token failing every guard (structured prefix,
boolean literal, numeral pattern) is returned unchanged as a string; a
guard-matching token is handed to `JSON.parse`, whose result is returned on
success and whose failure — including numerals with leading zeros — returns
the original string unchanged (never throwing); the claimed examples
evaluate as stated. -/
theorem c6_value_coercion (v : String) :
    (strStartsWith v "\x7b" = false → strStartsWith v "[" = false →
     strStartsWith v "\"" = false → v ≠ "true" → v ≠ "false" →
     matchesNumeral v = false → tryParseValue v = .str v) ∧
    (jsonParse v = none → tryParseValue v = .str v) ∧
    (matchesNumeral v = true → ∀ j, jsonParse v = some j → tryParseValue v = j) ∧
    tryParseValue "true" = .bool true ∧
    tryParseValue "false" = .bool false ∧
    tryParseValue "42" = .num (mkRat 42 1) ∧
    tryParseValue "[\"x\",\"y\"]" = .arr [.str "x", .str "y"] ∧
    tryParseValue "plain" = .str "plain" ∧
    tryParseValue "\x7bbad" = .str "\x7bbad" := by
  refine ⟨?_, ?_, ?_, by decide, by decide, by decide, by decide, by decide, by decide⟩
  · intro h1 h2 h3 h4 h5 h6
    simp [tryParseValue, h1, h2, h3, h4, h5, h6]
  · intro hnone
    unfold tryParseValue
    split
    · rfl
    · simp [hnone]
  · intro hnum j hj
    simp [tryParseValue, hnum, hj]

/-- **C6, witness.**  The amended claim applied at `"plain"` (guard path)
and `"42"` (numeral path). -/
theorem c6_value_coercion_witness :
    tryParseValue "plain" = .str "plain" ∧ tryParseValue "42" = .num (mkRat 42 1) :=
  ⟨(c6_value_coercion "plain").1 (by decide) (by decide) (by decide) (by decide)
      (by decide) (by decide),
   (c6_value_coercion "42").2.2.1 (by decide) (.num (mkRat 42 1)) (by decide)⟩

/-! ## C7: registration replacement and cache invalidation -/

/-- Writing a property keeps the key list duplicate-free. -/
theorem keysOf_setKey_nodup {β : Type} (m : List (String × β)) (k : String) (v : β)
    (h : (keysOf m).Nodup) : (keysOf (setKey m k v)).Nodup := by
  unfold setKey
  by_cases hmem : m.any (fun p => p.1 == k) = true
  · rw [if_pos hmem]
    have heq : keysOf (m.map (fun p => if p.1 == k then (k, v) else p)) = keysOf m := by
      unfold keysOf
      rw [List.map_map]
      apply List.map_congr_left
      intro p hp
      by_cases hpk : p.1 = k
      · simp [hpk]
      · simp [hpk]
    rw [heq]
    exact h
  · rw [if_neg hmem]
    have hk : k ∉ keysOf m := by
      intro hkm
      apply hmem
      rcases List.mem_map.mp hkm with ⟨p, hp, hpk⟩
      exact List.any_eq_true.mpr ⟨p, hp, by simp [hpk]⟩
    unfold keysOf
    rw [List.map_append]
    simp only [List.map_cons, List.map_nil]
    rw [List.nodup_append]
    refine ⟨h, List.nodup_singleton k, fun a ha hak => ?_⟩
    rw [List.mem_singleton] at hak
    exact hk (hak ▸ ha)

/-- **C7.**  `registerTool` inserts or replaces the registration keyed by
the tool's name (leaving exactly one registration for that name when the
registry's names were duplicate-free), clears the entire filter cache, and
leaves every other tool's registration unchanged. -/
theorem c7_registration (registry : ToolRegistry) (tool : MCPTool) (options : RegisterOptions)
    (hwf : (keysOf registry.tools).Nodup) :
    getKey (registerTool registry tool options).tools tool.name
      = some { tool := tool
               enabledByDefault := options.enabledByDefault.getD true
               conditions := options.conditions.getD [] } ∧
    (registerTool registry tool options).filteredCache = [] ∧
    (∀ n, n ≠ tool.name →
      getKey (registerTool registry tool options).tools n = getKey registry.tools n) ∧
    (keysOf (registerTool registry tool options).tools).Nodup ∧
    tool.name ∈ keysOf (registerTool registry tool options).tools := by
  refine ⟨getKey_setKey_self _ _ _, rfl, ?_, ?_, ?_⟩
  · intro n hn
    exact getKey_setKey_ne _ _ _ _ hn
  · exact keysOf_setKey_nodup _ _ _ hwf
  · apply (getKey_isSome_iff_mem _ _).mp
    rw [show getKey (registerTool registry tool options).tools tool.name
        = some { tool := tool
                 enabledByDefault := options.enabledByDefault.getD true
                 conditions := options.conditions.getD [] }
      from getKey_setKey_self _ _ _]
    rfl

/-- A tool named `x` with a first description. -/
def toolX1 : MCPTool := { name := "x", description := "first" }

/-- A tool named `x` with a second description. -/
def toolX2 : MCPTool := { name := "x", description := "second" }

/-- **C7, witness.**  Registering `"x"` twice: the second registration
replaces the first (one entry for `"x"`, holding the second description)
and the cache is cleared. -/
theorem c7_registration_witness :
    getKey (registerTool (registerTool emptyRegistry toolX1 {}) toolX2 {}).tools "x"
      = some { tool := toolX2, enabledByDefault := true, conditions := [] } ∧
    (registerTool (registerTool emptyRegistry toolX1 {}) toolX2 {}).filteredCache = [] ∧
    (keysOf (registerTool (registerTool emptyRegistry toolX1 {}) toolX2 {}).tools).Nodup ∧
    "x" ∈ keysOf (registerTool (registerTool emptyRegistry toolX1 {}) toolX2 {}).tools := by
  have h := c7_registration (registerTool emptyRegistry toolX1 {}) toolX2 {}
    (by decide)
  exact ⟨h.1, h.2.1, h.2.2.2.1, h.2.2.2.2⟩

/-! ## C8: parse degradation of the reserved to-use key -/

/-- **C8, counterexample.**  The reserved header is parsed as *arbitrary*
JSON, not validated as an array: `to-use: 5` parses successfully and the
stored value is the number `5` — not "a JSON array of tool-name strings"
and not the empty-array fallback (which only parse *failure* triggers). -/
theorem c8_counterexample :
    getKey (extractHeaderConfig [("to-use", "5")]) "to-use" = some (.num (mkRat 5 1)) ∧
    asArr (getKey (extractHeaderConfig [("to-use", "5")]) "to-use") = none := by
  decide

/-- **C8 (amended).**  The reserved `to-use` key is exempt from key
normalization (it is stored under the literal key `to-use`) and parsed with
`JSON.parse` without an array check (a non-array parse is stored as-is and
later ignored by the tool chain); on parse failure the stored value is the
empty array, nothing escapes to the caller, and — the tool list then being
empty — resolution records the no-tools warning in `validation.warnings`
while the resolution still succeeds (`isValid`, no errors). -/
theorem c8_parse_degradation (pre : List (String × String)) (v : String)
    (env : List (String × Json)) (hfail : jsonParse v = none) :
    getKey (extractHeaderConfig (pre ++ [("to-use", v)])) "to-use" = some (.arr []) ∧
    getKey (resolveConfig (pre ++ [("to-use", v)]) env).resolved "availableTools"
      = some (.arr []) ∧
    (resolveConfig (pre ++ [("to-use", v)]) env).validation.warnings = [noToolsWarning] ∧
    (resolveConfig (pre ++ [("to-use", v)]) env).validation.isValid = true ∧
    (resolveConfig (pre ++ [("to-use", v)]) env).validation.errors = [] := by
  have hext : extractHeaderConfig (pre ++ [("to-use", v)])
      = setKey (extractHeaderConfig pre) "to-use" (.arr []) := by
    unfold extractHeaderConfig
    rw [List.foldl_append]
    simp [hfail]
  have htouse : asArr (getKey (extractHeaderConfig (pre ++ [("to-use", v)])) "to-use")
      = some [] := by
    rw [hext, getKey_setKey_self]
    rfl
  have havail : resolveToolFiltering (extractHeaderConfig (pre ++ [("to-use", v)]))
      (extractEnvConfig env) getDefaultConfig = [] := by
    simp only [resolveToolFiltering, htouse]
  refine ⟨by rw [hext]; exact getKey_setKey_self _ _ _, ?_, ?_, rfl, rfl⟩
  · have hres : getKey (resolveConfig (pre ++ [("to-use", v)]) env).resolved "availableTools"
        = some (.arr (resolveToolFiltering (extractHeaderConfig (pre ++ [("to-use", v)]))
            (extractEnvConfig env) getDefaultConfig)) :=
      getKey_setKey_self _ _ _
    rw [hres, havail]
  · show (if (resolveToolFiltering (extractHeaderConfig (pre ++ [("to-use", v)]))
        (extractEnvConfig env) getDefaultConfig).isEmpty then [noToolsWarning] else [])
      = [noToolsWarning]
    rw [havail]
    rfl

/-- **C8, witness.**  A malformed `to-use` header (`not json`) degrades to
the empty array, and the no-tools warning lands in `validation.warnings`. -/
theorem c8_parse_degradation_witness :
    getKey (extractHeaderConfig [("to-use", "not json")]) "to-use" = some (.arr []) ∧
    getKey (resolveConfig [("to-use", "not json")] []).resolved "availableTools"
      = some (.arr []) ∧
    (resolveConfig [("to-use", "not json")] []).validation.warnings = [noToolsWarning] ∧
    (resolveConfig [("to-use", "not json")] []).validation.isValid = true ∧
    (resolveConfig [("to-use", "not json")] []).validation.errors = [] :=
  c8_parse_degradation [] "not json" [] (by decide)

/-! ## C9: condition evaluation totality -/

/-- **C9, counterexample.**  A `custom` condition lacking its validator
predicate evaluates to `true` — the tool passes, it is *not* excluded —
contradicting the claim that any condition with a missing required
predicate evaluates to false. -/
theorem c9_counterexample :
    evaluateCondition { type := "custom" } [] = true ∧
    shouldIncludeTool toolA
      { tool := toolA, enabledByDefault := true, conditions := [{ type := "custom" }] }
      [] {} = none := by
  exact ⟨rfl, rfl⟩

/-- **C9 (amended).**  Condition evaluation is total and never aborts a
filter computation, but missing fields do not uniformly fail: a `config`
condition lacking its field name (absent or empty string) evaluates to
false and excludes the tool with reason `Condition not met: config`; an
unknown condition type evaluates to false; an `environment` condition and a
`custom` condition lacking its validator evaluate to true (vacuous pass). -/
theorem c9_condition_totality (c : ToolCondition) (config : CfgMap) :
    (c.type = "config" → c.field = none → evaluateCondition c config = false) ∧
    (c.type = "config" → c.field = some "" → evaluateCondition c config = false) ∧
    (c.type = "environment" → evaluateCondition c config = true) ∧
    (c.type = "custom" → c.validator = none → evaluateCondition c config = true) ∧
    (c.type ≠ "config" → c.type ≠ "environment" → c.type ≠ "custom" →
      evaluateCondition c config = false) ∧
    (∀ (tool : MCPTool) (registration : ToolRegistration),
      registration.enabledByDefault = true →
      registration.conditions = [c] →
      c.type = "config" → c.field = none →
      shouldIncludeTool tool registration config {} = some "Condition not met: config") := by
  refine ⟨?_, ?_, ?_, ?_, ?_, ?_⟩
  · intro ht hf
    simp [evaluateCondition, ht, hf]
  · intro ht hf
    simp [evaluateCondition, ht, hf]
  · intro ht
    by_cases hc : c.type = "config"
    · rw [hc] at ht
      exact absurd ht (by decide)
    · simp [evaluateCondition, ht, hc]
  · intro ht hv
    by_cases hc : c.type = "config"
    · rw [hc] at ht
      exact absurd ht (by decide)
    · simp [evaluateCondition, ht, hc, hv]
  · intro h1 h2 h3
    simp [evaluateCondition, h1, h2, h3]
  · intro tool registration hen hconds ht hf
    have heval : evaluateCondition c config = false := by
      simp [evaluateCondition, ht, hf]
    simp [shouldIncludeTool, hen, hconds, heval, ht]

/-- **C9, witness.**  The amended behaviors at a concrete field-less
`config` condition and a validator-less `custom` condition. -/
theorem c9_condition_totality_witness :
    evaluateCondition { type := "config" } [] = false ∧
    evaluateCondition { type := "custom" } [] = true ∧
    shouldIncludeTool toolA
      { tool := toolA, enabledByDefault := true, conditions := [{ type := "config" }] }
      [] {} = some "Condition not met: config" :=
  ⟨(c9_condition_totality { type := "config" } []).1 rfl rfl,
   (c9_condition_totality { type := "custom" } []).2.2.2.1 rfl rfl,
   (c9_condition_totality { type := "config" } []).2.2.2.2.2 toolA
     { tool := toolA, enabledByDefault := true, conditions := [{ type := "config" }] }
     rfl rfl rfl rfl⟩
